import Mathlib

/-
Verification development for the lsf-chetana repository
(src/DataEntryCode.js and src/unnamed/part_000, Google Apps Script).

Shallow embedding notes:
- Spreadsheet cell values are modelled by the inductive type Cell: a string,
  a number (Int), a Date (epoch milliseconds, Int), or the JS value undefined
  (the result of out-of-range array indexing).
- JS objects used as string-keyed maps are modelled as insertion-ordered
  association lists (ObjMap): assignment to an existing key updates the value
  in place keeping its position, assignment to a fresh key appends it.
  Object.keys follows the ECMAScript own-property-key order: keys that are
  canonical array indices (decimal strings with value below 4294967295) come
  first in ascending numeric order, followed by the remaining string keys in
  insertion order.
- Locale-dependent rendering (toLocaleDateString, toLocaleString) and string
  date parsing (new Date(string)) are environment-dependent in JS; they are
  passed as function parameters (fmtDate, fmtDateTime, parseDate).
- Date.prototype.toString on a Date used as an object key is modelled
  abstractly by an ms-tagged string; no claim depends on date-valued keys.
- Thrown JS exceptions inside getFilteredData (e.g. reading the Schools sheet
  when it is absent) are modelled by an Option result, none meaning a throw.
- String splitting, trimming and digit filtering are implemented structurally
  on character lists so that every definition is kernel-computable; they
  mirror split(sep) for a one-character separator, trim(), and
  replace(notDigitRegex, emptyString) followed by parseInt with NaN
  defaulting to 0.
-/

namespace Chetana

/-- A spreadsheet cell value as seen by the dashboard code. -/
inductive Cell where
  | str (s : String)
  | num (n : Int)
  | date (ms : Int)
  | undef
deriving DecidableEq, Repr

abbrev Row := List Cell

/-- JS truthiness of a cell value (filter(c => c)): empty string, 0 and
undefined are falsy; Date objects are always truthy. -/
def jsTruthyCell : Cell → Bool
  | Cell.str s => s ≠ ""
  | Cell.num n => n ≠ 0
  | Cell.date _ => true
  | Cell.undef => false

/-- JS String(v) / v.toString() for a cell value; Date rendering is modelled
abstractly by an ms-tagged string (no claim depends on it). -/
def cellToString : Cell → String
  | Cell.str s => s
  | Cell.num n => toString n
  | Cell.date ms => "Date(" ++ toString ms ++ ")"
  | Cell.undef => "undefined"

/-- row[i] for a possibly negative index: out-of-range access gives undefined. -/
def getCell (row : Row) (i : Int) : Cell :=
  if i < 0 then Cell.undef else row.getD i.toNat Cell.undef

/-- Array.prototype.indexOf of a string among cells (strict equality, so only
string cells can match); returns the first index or -1. -/
def indexOfCell (l : List Cell) (x : String) : Int :=
  match l with
  | [] => -1
  | c :: t =>
    if c = Cell.str x then 0
    else
      let r := indexOfCell t x
      if r = -1 then -1 else r + 1

/-- String.prototype.split with a one-character separator, on char lists. -/
def splitCharsOn (sep : Char) : List Char → List (List Char)
  | [] => [[]]
  | c :: cs =>
    let r := splitCharsOn sep cs
    if c = sep then [] :: r
    else
      match r with
      | g :: gs => (c :: g) :: gs
      | [] => [[c]]

/-- String.prototype.trim on char lists. -/
def trimChars (cs : List Char) : List Char :=
  ((cs.dropWhile Char.isWhitespace).reverse.dropWhile Char.isWhitespace).reverse

/-- Value of a list of decimal digit characters. -/
def digitsVal (cs : List Char) : Nat :=
  cs.foldl (fun a c => a * 10 + (c.toNat - 48)) 0

/-- parseInt(s.replace(notDigitRegex, emptyString), 10) with the NaN case
(no digit at all) defaulting to 0, as in the classCounts parser. -/
def jsCount (cs : List Char) : Nat :=
  let ds := cs.filter Char.isDigit
  if ds.isEmpty then 0 else digitsVal ds

/-- Lookup in a JS object modelled as an insertion-ordered association list. -/
def objLookup {α : Type} : List (String × α) → String → Option α
  | [], _ => none
  | (k, v) :: rest, key => if k = key then some v else objLookup rest key

def objLookupD {α : Type} (m : List (String × α)) (key : String) (d : α) : α :=
  (objLookup m key).getD d

/-- JS property assignment obj[k] = v: update in place if the key exists,
append otherwise. -/
def objInsert {α : Type} : List (String × α) → String → α → List (String × α)
  | [], k, v => [(k, v)]
  | (k0, v0) :: rest, k, v =>
    if k0 = k then (k0, v) :: rest else (k0, v0) :: objInsert rest k v

/-- Whether a string is a canonical array-index property key in the
ECMAScript sense: a canonical decimal integer below 4294967295. -/
def isArrayIndexKey (s : String) : Bool :=
  match s.data with
  | [] => false
  | c :: cs =>
    (c :: cs).all Char.isDigit && (c ≠ '0' || cs.isEmpty) &&
      digitsVal (c :: cs) < 4294967295

def keyNumVal (s : String) : Nat := digitsVal s.data

def insertAsc (x : String) : List String → List String
  | [] => [x]
  | y :: ys => if keyNumVal x ≤ keyNumVal y then x :: y :: ys else y :: insertAsc x ys

def sortAsc : List String → List String
  | [] => []
  | x :: xs => insertAsc x (sortAsc xs)

/-- Object.keys in ECMAScript own-property order: array-index keys first in
ascending numeric order, then the remaining keys in insertion order. -/
def objKeys {α : Type} (m : List (String × α)) : List String :=
  let ks := m.map Prod.fst
  sortAsc (ks.filter isArrayIndexKey) ++ ks.filter (fun k => !isArrayIndexKey k)

/-- One comma-segment of the classCounts parser, exactly as in the source:
split the segment on every colon, trim each part, and keep it only when that
yields exactly two non-empty parts; the count side is digit-stripped and
parsed with default 0. -/
def parseSegStep (m : List (String × Nat)) (item : List Char) : List (String × Nat) :=
  match (splitCharsOn ':' item).map trimChars with
  | [a, b] =>
    if a ≠ [] && b ≠ [] then objInsert m (String.mk a) (jsCount b) else m
  | _ => m

def parseSegs (segs : List (List Char)) : List (String × Nat) :=
  segs.foldl parseSegStep []

/-- The classCounts string parser from getFilteredData (split on commas, then
parseSegStep per segment, accumulating into a JS object). -/
def parseClassCounts (s : String) : List (String × Nat) :=
  parseSegs (splitCharsOn ',' s.data)

/-- The dashboard filter criteria; the JS fields are strings or absent, and
absence or the empty string are both falsy. -/
structure Filters where
  name : Option String
  school : Option String
  startDate : Option String
  endDate : Option String
deriving DecidableEq, Repr

/-- JS truthiness of an optional string field. -/
def jsTruthyStr : Option String → Bool
  | none => false
  | some s => s ≠ ""

/-- Filter stage 1: coordinator name equality, skipped when the field is
falsy or the All Coordinators sentinel. -/
def applyNameFilter (f : Filters) (idxName : Int) (data : List Row) : List Row :=
  match f.name with
  | some n =>
    if n ≠ "" && n ≠ "All Coordinators" then
      data.filter (fun row => getCell row idxName = Cell.str n)
    else data
  | none => data

/-- Filter stage 2: school name equality, skipped when the field is falsy or
the All Schools sentinel. -/
def applySchoolFilter (f : Filters) (idxSchool : Int) (data : List Row) : List Row :=
  match f.school with
  | some s =>
    if s ≠ "" && s ≠ "All Schools" then
      data.filter (fun row => getCell row idxSchool = Cell.str s)
    else data
  | none => data

/-- new Date(cellValue).getTime(): a Date cell keeps its ms value, a number is
taken as ms, a string goes through the environment date parser, undefined is
an invalid date (none, i.e. NaN, which makes every comparison false). -/
def cellTime (parseDate : String → Option Int) : Cell → Option Int
  | Cell.date ms => some ms
  | Cell.num n => some n
  | Cell.str s => parseDate s
  | Cell.undef => none

/-- The date-range predicate of filter stage 3: inclusive lower bound at the
parsed startDate instant, inclusive upper bound at the parsed endDate instant
plus 86400000 ms; a NaN on either side of a comparison makes it false. -/
def passesDateRange (parseDate : String → Option Int) (sd ed : Option String)
    (c : Cell) : Bool :=
  let t? := cellTime parseDate c
  let afterStart :=
    if jsTruthyStr sd then
      match sd.bind parseDate, t? with
      | some s, some t => decide (s ≤ t)
      | _, _ => false
    else true
  let beforeEnd :=
    if jsTruthyStr ed then
      match ed.bind parseDate, t? with
      | some e, some t => decide (t ≤ e + 86400000)
      | _, _ => false
    else true
  afterStart && beforeEnd

/-- Filter stage 3: applied only when at least one bound is a truthy string. -/
def applyDateFilter (parseDate : String → Option Int) (f : Filters)
    (idxStart : Int) (data : List Row) : List Row :=
  if jsTruthyStr f.startDate || jsTruthyStr f.endDate then
    data.filter (fun row => passesDateRange parseDate f.startDate f.endDate (getCell row idxStart))
  else data

/-- The three filter stages in source order: coordinator, school, date range. -/
def applyAllFilters (parseDate : String → Option Int) (f : Filters)
    (idxName idxSchool idxStart : Int) (data : List Row) : List Row :=
  applyDateFilter parseDate f idxStart
    (applySchoolFilter f idxSchool (applyNameFilter f idxName data))

/-- Report1 header construction from getFilteredData: push S No, drop the
columns whose index equals indexOf of Session End Time or Timestamp, rename
the column whose index equals indexOf of Session Start Time to Date, keep
everything else in order. -/
def report1HeadersOf (headers : List Cell) : List Cell :=
  let idxStart := indexOfCell headers "Session Start Time"
  let idxEnd := indexOfCell headers "Session End Time"
  let idxTs := indexOfCell headers "Timestamp"
  Cell.str "S No" ::
    headers.enum.filterMap (fun p =>
      if ((p.1 : Int) = idxEnd || (p.1 : Int) = idxTs) then none
      else if (p.1 : Int) = idxStart then some (Cell.str "Date")
      else some p.2)

/-- The retained column indices of Report1, in original order. -/
def keepIndicesOf (headers : List Cell) : List Nat :=
  let idxStart := indexOfCell headers "Session Start Time"
  let idxEnd := indexOfCell headers "Session End Time"
  let idxTs := indexOfCell headers "Timestamp"
  headers.enum.filterMap (fun p =>
    if ((p.1 : Int) = idxEnd || (p.1 : Int) = idxTs) then none
    else
      let _ := idxStart
      some p.1)

/-- Report1 cell formatting: a Date in the renamed Date column is rendered
with the date-only formatter, any other Date with the full formatter, and
every other value passes through unchanged. -/
def formatCell (fmtDate fmtDateTime : Int → String) (idxStart : Int)
    (colIndex : Nat) (c : Cell) : Cell :=
  match c with
  | Cell.date ms =>
    if (colIndex : Int) = idxStart then Cell.str (fmtDate ms)
    else Cell.str (fmtDateTime ms)
  | c => c

/-- Report1 row construction: serial number (position + 1) followed by the
formatted retained cells, one output row per filtered record. -/
def buildReport1 (fmtDate fmtDateTime : Int → String) (idxStart : Int)
    (keep : List Nat) (data : List Row) : List Row :=
  data.enum.map (fun p =>
    Cell.num ((p.1 : Int) + 1) ::
      keep.map (fun c => formatCell fmtDate fmtDateTime idxStart c (p.2.getD c Cell.undef)))

/-- One session appended to a class list of the class breakdown. -/
structure SessionEntry where
  module : Cell
  date : Cell
  coordinator : Cell
  students : Nat
deriving DecidableEq, Repr

/-- One entry of Report2: a class name and its session list. -/
structure BreakdownEntry where
  className : String
  sessions : List SessionEntry
deriving DecidableEq, Repr

/-- Seeding of the class breakdown object: one empty list per catalog class,
in catalog order (later duplicates update in place). -/
def seedBreakdown (classes : List Cell) : List (String × List SessionEntry) :=
  classes.foldl (fun m c => objInsert m (cellToString c) []) []

/-- The per-row parsed classCounts map: only a string cell with non-blank
trim is parsed, anything else gives the empty map. -/
def sessionMapOf (row : Row) (idxCC : Int) : List (String × Nat) :=
  match getCell row idxCC with
  | Cell.str s => if trimChars s.data ≠ [] then parseClassCounts s else []
  | _ => []

/-- One parsed class of one session pushed onto the breakdown object: only
keys already present (hasOwnProperty) receive the session entry. -/
def pushStep (smap : List (String × Nat)) (modCell dateCell coordCell : Cell)
    (m : List (String × List SessionEntry)) (cls : String) :
    List (String × List SessionEntry) :=
  match objLookup m cls with
  | some sessions =>
    objInsert m cls (sessions ++ [⟨modCell, dateCell, coordCell, objLookupD smap cls 0⟩])
  | none => m

/-- One filtered record folded into the breakdown object. -/
def rowStep (fmtDate : Int → String) (idxName idxStart idxModule idxCC : Int)
    (m : List (String × List SessionEntry)) (row : Row) :
    List (String × List SessionEntry) :=
  let smap := sessionMapOf row idxCC
  let dateCell :=
    match getCell row idxStart with
    | Cell.date ms => Cell.str (fmtDate ms)
    | c => c
  (objKeys smap).foldl
    (pushStep smap (getCell row idxModule) dateCell (getCell row idxName)) m

/-- The Report2 construction for a selected school, given the Schools sheet
values split into header row and remaining rows: locate the school column,
collect its truthy class cells, seed the breakdown, fold in the filtered
records, and read the object back in key order. -/
def classBreakdownFor (fmtDate : Int → String) (idxName idxStart idxModule idxCC : Int)
    (sh : Row) (rest : List Row) (schoolName : String) (data : List Row) :
    List BreakdownEntry :=
  let colIdx := indexOfCell sh schoolName
  if colIdx = -1 then []
  else
    let classes := (rest.map (fun row => getCell row colIdx)).filter jsTruthyCell
    let populated := data.foldl (rowStep fmtDate idxName idxStart idxModule idxCC)
      (seedBreakdown classes)
    (objKeys populated).map (fun cls => ⟨cls, objLookupD populated cls []⟩)

/-- The object shape returned by getFilteredData on the non-empty path. -/
structure FilteredResult where
  report1 : List Row
  report1Headers : List Cell
  report2 : Option (List BreakdownEntry)
  filterValues : Filters
deriving DecidableEq, Repr

/-- The two result shapes of getFilteredData: a bare empty array for a
missing or header-only Tracker sheet, the result object otherwise. -/
inductive GFOutput where
  | emptyArray
  | result (r : FilteredResult)
deriving DecidableEq, Repr

/-- The guard shared by the school filter and the Report2 branch: a truthy
school value other than the All Schools sentinel. -/
def schoolSelected (f : Filters) : Bool :=
  match f.school with
  | some s => s ≠ "" && s ≠ "All Schools"
  | none => false

/-- getFilteredData from src/DataEntryCode.js (identical in
src/unnamed/part_000). The tracker and schools arguments are the row values
of the Tracker and Schools sheets, none meaning the sheet is absent. The
overall Option is none when the JS code would throw (reading the Schools
sheet for a selected school when that sheet is absent or has no rows). -/
def getFilteredData (parseDate : String → Option Int) (fmtDate fmtDateTime : Int → String)
    (tracker schools : Option (List Row)) (filters : Filters) : Option GFOutput :=
  match tracker with
  | none => some GFOutput.emptyArray
  | some values =>
    if values.length ≤ 1 then some GFOutput.emptyArray
    else
      let headers := values.headD []
      let idxName := indexOfCell headers "Name"
      let idxStart := indexOfCell headers "Session Start Time"
      let idxSchool := indexOfCell headers "School Name"
      let idxModule := indexOfCell headers "Module"
      let idxCC := indexOfCell headers "Class_Student_Counts"
      let data := applyAllFilters parseDate filters idxName idxSchool idxStart (values.drop 1)
      let allSessions := buildReport1 fmtDate fmtDateTime idxStart (keepIndicesOf headers) data
      let breakdown : Option (Option (List BreakdownEntry)) :=
        if schoolSelected filters then
          match schools with
          | none => none
          | some [] => none
          | some (sh :: rest) =>
            some (some (classBreakdownFor fmtDate idxName idxStart idxModule idxCC
              sh rest ((filters.school).getD "") data))
        else some none
      match breakdown with
      | none => none
      | some report2 =>
        some (GFOutput.result
          ⟨allSessions, report1HeadersOf headers, report2, filters⟩)

/-- The result shape of getColumnData in src/DataEntryCode.js: either a data
array or an error message. -/
inductive ColumnResult where
  | data (values : List Cell)
  | error (msg : String)
deriving DecidableEq, Repr

/-- The cell filter of the column readers: truthy and non-blank after
toString and trim. -/
def keepColumnCell (c : Cell) : Bool :=
  jsTruthyCell c && trimChars (cellToString c).data ≠ []

/-- getColumnData from src/DataEntryCode.js. The access argument models the
storage boundary: error e for a thrown storage access, ok none for a missing
sheet, ok (some rows) for the sheet content rows (the last content row index
is the row count). Reads column A from row 2 on. -/
def getColumnData (sheetName : String) (access : Except String (Option (List Row))) :
    ColumnResult :=
  match access with
  | Except.error e =>
    ColumnResult.error ("Failed to load data from " ++ sheetName ++ ": " ++ e)
  | Except.ok none => ColumnResult.error ("Sheet " ++ sheetName ++ " is missing.")
  | Except.ok (some rows) =>
    if rows.length ≤ 1 then ColumnResult.data []
    else
      let vals := ((rows.drop 1).map (fun r => getCell r 0)).filter keepColumnCell
      if vals.length = 0 then ColumnResult.data [] else ColumnResult.data vals

/-- getColumnData from src/unnamed/part_000: same read of column A (from row
1, headers included), but a missing sheet or a storage failure produce a bare
empty list with no error flag. -/
def getColumnDataAlt (access : Except String (Option (List Row))) : List Cell :=
  match access with
  | Except.error _ => []
  | Except.ok none => []
  | Except.ok (some rows) => (rows.map (fun r => getCell r 0)).filter keepColumnCell

/-! Spec-side definitions, written from the words of the specification, for
comparison with the definitions above that embed the source. -/

def joinColon : List (List Char) → List Char
  | [] => []
  | [g] => g
  | g :: gs => g ++ ':' :: joinColon gs

/-- Splitting a segment on its first colon only, as the specification words
describe the classCounts parse (a segment with no colon stays whole). -/
def splitFirstColonChars (item : List Char) : List (List Char) :=
  match splitCharsOn ':' item with
  | [] => []
  | [a] => [a]
  | a :: rest => [a, joinColon rest]

/-- The classCounts parse as the claim words it: split on commas, then on the
first colon in each segment, trim both sides, digit-strip-and-parse the count
with default 0, and skip segments that do not yield exactly two non-empty
parts. -/
def parseClassCountsSpecC2 (s : String) : List (String × Nat) :=
  (splitCharsOn ',' s.data).foldl
    (fun m item =>
      match (splitFirstColonChars item).map trimChars with
      | [a, b] =>
        if a ≠ [] && b ≠ [] then objInsert m (String.mk a) (jsCount b) else m
      | _ => m)
    []

/-- Option-style segment parser matching the per-segment behavior of the
source (split on every colon, keep exactly two non-empty trimmed parts). -/
def parseSegmentSpec (item : List Char) : Option (String × Nat) :=
  match (splitCharsOn ':' item).map trimChars with
  | [a, b] => if a ≠ [] && b ≠ [] then some (String.mk a, jsCount b) else none
  | _ => none

/-- The amended classCounts parse, restated independently with the
Option-style segment parser. -/
def parseClassCountsAmendedSpec (s : String) : List (String × Nat) :=
  (splitCharsOn ',' s.data).foldl
    (fun m item =>
      match parseSegmentSpec item with
      | some kv => objInsert m kv.1 kv.2
      | none => m)
    []

/-- First-occurrence deduplication of a key list, relative to keys already
seen. -/
def firstOccDedupAux (seen : List String) : List String → List String
  | [] => []
  | k :: ks =>
    if k ∈ seen then firstOccDedupAux seen ks
    else k :: firstOccDedupAux (k :: seen) ks

/-- First-occurrence deduplication of a key list. -/
def firstOccDedup (ks : List String) : List String :=
  firstOccDedupAux [] ks

/-- The order in which a JS object built by inserting the given keys lists
them: distinct keys, array-index keys first in ascending numeric order, the
rest in first-occurrence order. -/
def specOrder (ks : List String) : List String :=
  sortAsc ((firstOccDedup ks).filter isArrayIndexKey) ++
    (firstOccDedup ks).filter (fun k => !isArrayIndexKey k)

/-- The count of the last comma-segment naming a given class, if any: the
first match over the reversed segment list. -/
def lastParsedCount (segs : List (List Char)) (k : String) : Option Nat :=
  segs.reverse.findSome? (fun item =>
    match parseSegmentSpec item with
    | some kv => if kv.1 = k then some kv.2 else none
    | none => none)

/-- The Report1 header transform as the claim words it: value-based, drop the
Session End Time and Timestamp headers, rename Session Start Time to Date,
keep the rest. -/
def specHeaderMap (h : Cell) : Option Cell :=
  if h = Cell.str "Session End Time" ∨ h = Cell.str "Timestamp" then none
  else if h = Cell.str "Session Start Time" then some (Cell.str "Date")
  else some h

/-! Helper lemmas about the JS object model. -/

theorem objLookup_objInsert_self {α : Type} (m : List (String × α)) (k : String) (v : α) :
    objLookup (objInsert m k v) k = some v := by
  induction m with
  | nil => simp [objInsert, objLookup]
  | cons p rest ih =>
    rcases p with ⟨k0, v0⟩
    by_cases h : k0 = k <;> simp [objInsert, objLookup, h, ih]

theorem objLookup_objInsert_ne {α : Type} (m : List (String × α)) (k k0 : String) (v : α)
    (h : k0 ≠ k) : objLookup (objInsert m k v) k0 = objLookup m k0 := by
  induction m with
  | nil => simp [objInsert, objLookup, if_neg (Ne.symm h)]
  | cons p rest ih =>
    rcases p with ⟨k1, v1⟩
    by_cases h1 : k1 = k
    · subst h1
      simp [objInsert, objLookup, Ne.symm h]
    · simp [objInsert, objLookup, h1, ih]

theorem keys_objInsert {α : Type} (m : List (String × α)) (k : String) (v : α) :
    (objInsert m k v).map Prod.fst =
      if k ∈ m.map Prod.fst then m.map Prod.fst else m.map Prod.fst ++ [k] := by
  induction m with
  | nil => simp [objInsert]
  | cons p rest ih =>
    rcases p with ⟨k0, v0⟩
    by_cases h : k0 = k
    · subst h
      simp [objInsert]
    · have hk0 : ¬k = k0 := fun hh => h hh.symm
      by_cases hm : k ∈ rest.map Prod.fst <;>
        simp [objInsert, h, ih, hm, hk0]

theorem objLookup_eq_none_iff {α : Type} (m : List (String × α)) (k : String) :
    objLookup m k = none ↔ k ∉ m.map Prod.fst := by
  induction m with
  | nil => simp [objLookup]
  | cons p rest ih =>
    rcases p with ⟨k0, v0⟩
    by_cases h : k0 = k
    · subst h
      simp [objLookup]
    · have hk0 : ¬k = k0 := fun hh => h hh.symm
      simp [objLookup, h, ih, hk0]

theorem mem_keys_exists {α : Type} (m : List (String × α)) (k : String)
    (h : k ∈ m.map Prod.fst) : ∃ v, objLookup m k = some v := by
  cases hl : objLookup m k with
  | none => exact absurd ((objLookup_eq_none_iff m k).mp hl) (by simp [h])
  | some v => exact ⟨v, rfl⟩

theorem objLookup_mem {α : Type} (m : List (String × α)) (k : String) (v : α)
    (h : objLookup m k = some v) : (k, v) ∈ m := by
  induction m with
  | nil => simp [objLookup] at h
  | cons p rest ih =>
    rcases p with ⟨k0, v0⟩
    by_cases h0 : k0 = k
    · subst h0
      simp [objLookup] at h
      simp [h]
    · simp [objLookup, h0] at h
      exact List.mem_cons_of_mem _ (ih h)

theorem mem_objInsert {α : Type} (m : List (String × α)) (k : String) (v : α)
    (p : String × α) (h : p ∈ objInsert m k v) : p ∈ m ∨ p = (k, v) := by
  induction m with
  | nil => simp [objInsert] at h; simp [h]
  | cons q rest ih =>
    rcases q with ⟨k0, v0⟩
    by_cases h0 : k0 = k
    · subst h0
      simp [objInsert] at h
      rcases h with h | h
      · simp [h]
      · exact Or.inl (List.mem_cons_of_mem _ h)
    · simp [objInsert, h0] at h
      rcases h with h | h
      · simp [h]
      · rcases ih h with h1 | h1
        · exact Or.inl (List.mem_cons_of_mem _ h1)
        · simp [h1]

theorem nodup_keys_objInsert {α : Type} (m : List (String × α)) (k : String) (v : α)
    (h : (m.map Prod.fst).Nodup) : ((objInsert m k v).map Prod.fst).Nodup := by
  rw [keys_objInsert]
  by_cases hm : k ∈ m.map Prod.fst
  · simpa [hm] using h
  · simp only [if_neg hm]
    rw [List.nodup_append]
    exact ⟨h, List.nodup_singleton k, by simpa [List.disjoint_singleton] using hm⟩

/-! Helper lemmas about the key ordering model. -/

theorem mem_insertAsc (x y : String) (l : List String) :
    y ∈ insertAsc x l ↔ y = x ∨ y ∈ l := by
  induction l with
  | nil => simp [insertAsc]
  | cons z zs ih =>
    by_cases h : keyNumVal x ≤ keyNumVal z <;> simp [insertAsc, h, ih] <;> tauto

theorem mem_sortAsc (y : String) (l : List String) : y ∈ sortAsc l ↔ y ∈ l := by
  induction l with
  | nil => simp [sortAsc]
  | cons z zs ih => simp [sortAsc, mem_insertAsc, ih]

theorem count_insertAsc (a x : String) (l : List String) :
    (insertAsc x l).count a = l.count a + if x = a then 1 else 0 := by
  induction l with
  | nil => simp [insertAsc, List.count_cons, List.count_nil]
  | cons z zs ih =>
    by_cases h : keyNumVal x ≤ keyNumVal z <;>
      simp [insertAsc, h, List.count_cons, ih] <;> ring

theorem count_sortAsc (a : String) (l : List String) :
    (sortAsc l).count a = l.count a := by
  induction l with
  | nil => simp [sortAsc]
  | cons z zs ih => simp [sortAsc, count_insertAsc, ih, List.count_cons]

theorem mem_objKeys {α : Type} (m : List (String × α)) (k : String) :
    k ∈ objKeys m ↔ k ∈ m.map Prod.fst := by
  unfold objKeys
  simp only [List.mem_append, mem_sortAsc, List.mem_filter]
  by_cases h : isArrayIndexKey k <;> simp [h]

theorem count_objKeys_le_one {α : Type} (m : List (String × α))
    (h : (m.map Prod.fst).Nodup) (k : String) : (objKeys m).count k ≤ 1 := by
  unfold objKeys
  rw [List.count_append, count_sortAsc]
  have hcount : (m.map Prod.fst).count k ≤ 1 := List.nodup_iff_count_le_one.mp h k
  by_cases hk : isArrayIndexKey k
  · have h1 : (List.filter isArrayIndexKey (m.map Prod.fst)).count k
        = (m.map Prod.fst).count k := List.count_filter (by simp [hk])
    have h2 : (List.filter (fun x => !isArrayIndexKey x) (m.map Prod.fst)).count k = 0 := by
      rw [List.count_eq_zero]
      intro hmem
      have hmm := (List.mem_filter.mp hmem).2
      simp [hk] at hmm
    omega
  · have h1 : (List.filter isArrayIndexKey (m.map Prod.fst)).count k = 0 := by
      rw [List.count_eq_zero]
      intro hmem
      exact hk (List.mem_filter.mp hmem).2
    have h2 : (List.filter (fun x => !isArrayIndexKey x) (m.map Prod.fst)).count k
        = (m.map Prod.fst).count k := List.count_filter (by simp_all)
    omega

/-! Helper lemmas about the breakdown seeding and population folds. -/

theorem firstOccDedupAux_congr (s1 s2 : List String) (ks : List String)
    (h : ∀ x, x ∈ s1 ↔ x ∈ s2) : firstOccDedupAux s1 ks = firstOccDedupAux s2 ks := by
  induction ks generalizing s1 s2 with
  | nil => rfl
  | cons k ks ih =>
    by_cases hk : k ∈ s1
    · simp [firstOccDedupAux, hk, (h k).mp hk, ih _ _ h]
    · have hk2 : k ∉ s2 := fun hc => hk ((h k).mpr hc)
      simp only [firstOccDedupAux, if_neg hk, if_neg hk2]
      exact congrArg _ (ih _ _ (fun x => by simp [h x]))

theorem keys_insertFold {α : Type} (v : α) (ks : List String) (m : List (String × α)) :
    ((ks.foldl (fun m2 k => objInsert m2 k v) m).map Prod.fst) =
      m.map Prod.fst ++ firstOccDedupAux (m.map Prod.fst) ks := by
  induction ks generalizing m with
  | nil => simp [firstOccDedupAux]
  | cons k ks ih =>
    simp only [List.foldl_cons]
    by_cases hm : k ∈ m.map Prod.fst
    · have hkeys : (objInsert m k v).map Prod.fst = m.map Prod.fst := by
        rw [keys_objInsert, if_pos hm]
      rw [ih, hkeys]
      simp [firstOccDedupAux, hm]
    · have hkeys : (objInsert m k v).map Prod.fst = m.map Prod.fst ++ [k] := by
        rw [keys_objInsert, if_neg hm]
      rw [ih, hkeys]
      simp only [firstOccDedupAux, if_neg hm, List.append_assoc, List.singleton_append]
      exact congrArg _ (congrArg _ (firstOccDedupAux_congr _ _ _ (fun x => by simp [or_comm])))

theorem keys_seedBreakdown (classes : List Cell) :
    (seedBreakdown classes).map Prod.fst = firstOccDedup (classes.map cellToString) := by
  unfold seedBreakdown firstOccDedup
  rw [← List.foldl_map (f := cellToString)
    (g := fun m2 k => objInsert m2 k ([] : List SessionEntry))]
  rw [keys_insertFold]
  rfl

theorem values_insertFold_nil (ks : List String) (m : List (String × List SessionEntry))
    (hm : ∀ p ∈ m, p.2 = []) :
    ∀ p ∈ ks.foldl (fun m2 k => objInsert m2 k ([] : List SessionEntry)) m, p.2 = [] := by
  induction ks generalizing m with
  | nil => exact hm
  | cons k ks ih =>
    simp only [List.foldl_cons]
    refine ih _ (fun p hp => ?_)
    rcases mem_objInsert _ _ _ _ hp with h | h
    · exact hm p h
    · simp [h]

theorem lookup_seedBreakdown_empty (classes : List Cell) (k : String)
    (v : List SessionEntry) (h : objLookup (seedBreakdown classes) k = some v) : v = [] := by
  have hmem := objLookup_mem _ _ _ h
  unfold seedBreakdown at hmem
  rw [← List.foldl_map (f := cellToString)
    (g := fun m2 k => objInsert m2 k ([] : List SessionEntry))] at hmem
  exact values_insertFold_nil _ _ (by simp) _ hmem

theorem keys_pushStep (smap : List (String × Nat)) (mo da co : Cell)
    (m : List (String × List SessionEntry)) (cls : String) :
    (pushStep smap mo da co m cls).map Prod.fst = m.map Prod.fst := by
  unfold pushStep
  cases h : objLookup m cls with
  | none => rfl
  | some sessions =>
    rw [keys_objInsert, if_pos]
    by_contra hmem
    rw [← objLookup_eq_none_iff] at hmem
    rw [h] at hmem
    exact Option.noConfusion hmem

theorem keys_pushFold (smap : List (String × Nat)) (mo da co : Cell)
    (ks : List String) (m : List (String × List SessionEntry)) :
    ((ks.foldl (pushStep smap mo da co) m).map Prod.fst) = m.map Prod.fst := by
  induction ks generalizing m with
  | nil => rfl
  | cons k ks ih => simp only [List.foldl_cons]; rw [ih, keys_pushStep]

theorem keys_rowStep (fmtDate : Int → String) (idxName idxStart idxModule idxCC : Int)
    (m : List (String × List SessionEntry)) (row : Row) :
    (rowStep fmtDate idxName idxStart idxModule idxCC m row).map Prod.fst = m.map Prod.fst := by
  unfold rowStep
  exact keys_pushFold _ _ _ _ _ _

theorem keys_populate (fmtDate : Int → String) (idxName idxStart idxModule idxCC : Int)
    (data : List Row) (m : List (String × List SessionEntry)) :
    ((data.foldl (rowStep fmtDate idxName idxStart idxModule idxCC) m).map Prod.fst)
      = m.map Prod.fst := by
  induction data generalizing m with
  | nil => rfl
  | cons row rows ih => simp only [List.foldl_cons]; rw [ih, keys_rowStep]

theorem lookup_pushStep_ne (smap : List (String × Nat)) (mo da co : Cell)
    (m : List (String × List SessionEntry)) (cls c : String) (h : cls ≠ c) :
    objLookup (pushStep smap mo da co m cls) c = objLookup m c := by
  unfold pushStep
  cases objLookup m cls with
  | none => rfl
  | some sessions => exact objLookup_objInsert_ne _ _ _ _ (Ne.symm h)

theorem lookup_pushFold_ne (smap : List (String × Nat)) (mo da co : Cell)
    (ks : List String) (m : List (String × List SessionEntry)) (c : String)
    (h : ∀ cls ∈ ks, cls ≠ c) :
    objLookup (ks.foldl (pushStep smap mo da co) m) c = objLookup m c := by
  induction ks generalizing m with
  | nil => rfl
  | cons k ks ih =>
    simp only [List.foldl_cons]
    rw [ih _ (fun cls hc => h cls (List.mem_cons_of_mem _ hc)),
      lookup_pushStep_ne _ _ _ _ _ _ _ (h k (List.mem_cons_self _ _))]

theorem lookup_rowStep_unmentioned (fmtDate : Int → String)
    (idxName idxStart idxModule idxCC : Int) (m : List (String × List SessionEntry))
    (row : Row) (c : String) (h : objLookup (sessionMapOf row idxCC) c = none) :
    objLookup (rowStep fmtDate idxName idxStart idxModule idxCC m row) c = objLookup m c := by
  unfold rowStep
  refine lookup_pushFold_ne _ _ _ _ _ _ _ (fun cls hc hceq => ?_)
  subst hceq
  rw [mem_objKeys] at hc
  rw [objLookup_eq_none_iff] at h
  exact h hc

theorem lookup_populate_unmentioned (fmtDate : Int → String)
    (idxName idxStart idxModule idxCC : Int) (data : List Row)
    (m : List (String × List SessionEntry)) (c : String)
    (h : ∀ row ∈ data, objLookup (sessionMapOf row idxCC) c = none) :
    objLookup (data.foldl (rowStep fmtDate idxName idxStart idxModule idxCC) m) c
      = objLookup m c := by
  induction data generalizing m with
  | nil => rfl
  | cons row rows ih =>
    simp only [List.foldl_cons]
    rw [ih _ (fun r hr => h r (List.mem_cons_of_mem _ hr)),
      lookup_rowStep_unmentioned _ _ _ _ _ _ _ _ (h row (List.mem_cons_self _ _))]

/-! Helper lemmas about the classCounts segment parser. -/

theorem parseSegStep_eq_spec (m : List (String × Nat)) (item : List Char) :
    parseSegStep m item =
      match parseSegmentSpec item with
      | some kv => objInsert m kv.1 kv.2
      | none => m := by
  unfold parseSegStep parseSegmentSpec
  rcases h : (splitCharsOn ':' item).map trimChars with _ | ⟨a, _ | ⟨b, _ | ⟨c, rest⟩⟩⟩ <;>
    simp only
  split <;> simp

theorem findSomeAppend {α β : Type} (f : α → Option β) (l1 l2 : List α) :
    List.findSome? f (l1 ++ l2) =
      match List.findSome? f l1 with
      | some b => some b
      | none => List.findSome? f l2 := by
  induction l1 with
  | nil => simp [List.findSome?_nil]
  | cons a as ih =>
    simp only [List.cons_append, List.findSome?_cons]
    cases f a <;> simp [ih]

theorem lookup_parseSegFold (k : String) (segs : List (List Char))
    (m : List (String × Nat)) :
    objLookup (segs.foldl parseSegStep m) k =
      match lastParsedCount segs k with
      | some v => some v
      | none => objLookup m k := by
  induction segs generalizing m with
  | nil => simp [lastParsedCount]
  | cons seg segs ih =>
    simp only [List.foldl_cons]
    rw [ih]
    unfold lastParsedCount
    simp only [List.reverse_cons]
    rw [findSomeAppend]
    rcases hrest : List.findSome? _ segs.reverse with _ | v
    · simp only [List.findSome?_cons, List.findSome?_nil]
      rw [parseSegStep_eq_spec]
      rcases hseg : parseSegmentSpec seg with _ | ⟨a, v0⟩
      · simp
      · simp only
        by_cases hak : a = k
        · subst hak
          simp [objLookup_objInsert_self]
        · simp [hak, objLookup_objInsert_ne _ _ _ _ (Ne.symm hak)]
    · simp

theorem nodup_keys_parseSegFold (segs : List (List Char)) (m : List (String × Nat))
    (hm : (m.map Prod.fst).Nodup) :
    ((segs.foldl parseSegStep m).map Prod.fst).Nodup := by
  induction segs generalizing m with
  | nil => exact hm
  | cons seg segs ih =>
    simp only [List.foldl_cons]
    refine ih _ ?_
    rw [parseSegStep_eq_spec]
    rcases parseSegmentSpec seg with _ | kv
    · exact hm
    · exact nodup_keys_objInsert _ _ _ hm

theorem nodup_keys_parseClassCounts (s : String) :
    ((parseClassCounts s).map Prod.fst).Nodup := by
  unfold parseClassCounts parseSegs
  exact nodup_keys_parseSegFold _ _ (by simp)

theorem nodup_keys_sessionMapOf (row : Row) (idxCC : Int) :
    ((sessionMapOf row idxCC).map Prod.fst).Nodup := by
  unfold sessionMapOf
  rcases getCell row idxCC with s | n | ms | _
  · by_cases h : trimChars s.data ≠ [] <;> simp [h, nodup_keys_parseClassCounts]
  · simp
  · simp
  · simp

theorem lookupD_pushStep_le (smap : List (String × Nat)) (mo da co : Cell)
    (m : List (String × List SessionEntry)) (cls c : String) :
    (objLookupD (pushStep smap mo da co m cls) c []).length ≤
      (objLookupD m c []).length + (if cls = c then 1 else 0) := by
  by_cases h : cls = c
  · subst h
    unfold pushStep
    cases hl : objLookup m cls with
    | none => simp [objLookupD, hl]
    | some sessions =>
      simp [objLookupD, hl, objLookup_objInsert_self]
  · unfold objLookupD
    rw [lookup_pushStep_ne _ _ _ _ _ _ _ h]
    simp [h]

theorem lookupD_pushFold_le (smap : List (String × Nat)) (mo da co : Cell)
    (ks : List String) (m : List (String × List SessionEntry)) (c : String) :
    (objLookupD (ks.foldl (pushStep smap mo da co) m) c []).length ≤
      (objLookupD m c []).length + ks.count c := by
  induction ks generalizing m with
  | nil => simp
  | cons k ks ih =>
    simp only [List.foldl_cons]
    calc (objLookupD (ks.foldl (pushStep smap mo da co) (pushStep smap mo da co m k)) c []).length
        ≤ (objLookupD (pushStep smap mo da co m k) c []).length + ks.count c := ih _
      _ ≤ (objLookupD m c []).length + (if k = c then 1 else 0) + ks.count c :=
          Nat.add_le_add_right (lookupD_pushStep_le _ _ _ _ _ _ _) _
      _ = (objLookupD m c []).length + ((k :: ks).count c) := by
          rw [List.count_cons]
          by_cases h : k = c <;> simp [h] <;> omega

/-! Helper lemmas about indexOf and enumerated traversal, for the Report1
header construction. -/

theorem indexOfCell_nonneg (l : List Cell) (x : String) :
    indexOfCell l x = -1 ∨ 0 ≤ indexOfCell l x := by
  induction l with
  | nil => exact Or.inl rfl
  | cons c t ih =>
    by_cases h : c = Cell.str x
    · right; simp [indexOfCell, h]
    · rcases ih with h1 | h1
      · left; simp [indexOfCell, h, h1]
      · simp only [indexOfCell, if_neg h]
        by_cases h2 : indexOfCell t x = -1
        · left; simp [h2]
        · right; rw [if_neg h2]; omega

theorem indexOfCell_spec (l : List Cell) (x : String)
    (hcount : l.count (Cell.str x) ≤ 1) :
    ∀ (i : Nat) (h : Cell), l[i]? = some h → ((i : Int) = indexOfCell l x ↔ h = Cell.str x) := by
  induction l with
  | nil => intro i h hh; simp at hh
  | cons c t ih =>
    intro i h hh
    by_cases hc : c = Cell.str x
    · subst hc
      have hcz : t.count (Cell.str x) = 0 := by
        rw [List.count_cons] at hcount
        simp at hcount
        omega
      cases i with
      | zero =>
        simp at hh
        subst hh
        simp [indexOfCell]
      | succ i =>
        simp at hh
        have hidx : indexOfCell (Cell.str x :: t) x = 0 := by simp [indexOfCell]
        rw [hidx]
        constructor
        · intro hc2; exfalso; omega
        · intro hx
          exfalso
          have hmem : h ∈ t := List.getElem?_mem hh
          rw [hx] at hmem
          rw [List.count_eq_zero] at hcz
          exact hcz hmem
    · have hct : t.count (Cell.str x) ≤ 1 := by
        rw [List.count_cons] at hcount
        simp [hc] at hcount
        omega
      have hidx : indexOfCell (c :: t) x =
          (if indexOfCell t x = -1 then -1 else indexOfCell t x + 1) := by
        simp [indexOfCell, hc]
      cases i with
      | zero =>
        simp at hh
        subst hh
        rw [hidx]
        rcases indexOfCell_nonneg t x with h1 | h1
        · rw [if_pos h1]
          simp [hc]
        · have hne : indexOfCell t x ≠ -1 := by omega
          rw [if_neg hne]
          constructor
          · intro h0; exfalso; omega
          · intro hx; exact absurd hx hc
      | succ i =>
        simp at hh
        have IH := ih hct i h hh
        rw [hidx]
        rcases indexOfCell_nonneg t x with h1 | h1
        · rw [if_pos h1]
          constructor
          · intro h0; exfalso; omega
          · intro hx
            have h2 := IH.mpr hx
            rw [h1] at h2
            exfalso; omega
        · have hne : indexOfCell t x ≠ -1 := by omega
          rw [if_neg hne]
          constructor
          · intro h0
            have h2 : (i : Int) = indexOfCell t x := by omega
            exact IH.mp h2
          · intro hx
            have h2 := IH.mpr hx
            omega

theorem mem_enumFrom_getElem {α : Type} (l : List α) (n : Nat) (p : Nat × α)
    (h : p ∈ l.enumFrom n) : ∃ i : Nat, p.1 = n + i ∧ l[i]? = some p.2 := by
  induction l generalizing n with
  | nil => simp at h
  | cons a as ih =>
    rw [List.enumFrom_cons] at h
    rcases List.mem_cons.mp h with h1 | h1
    · exact ⟨0, by simp [h1], by simp [h1]⟩
    · rcases ih (n + 1) h1 with ⟨i, h2, h3⟩
      exact ⟨i + 1, by omega, by simpa using h3⟩

theorem enumFrom_filterMap_emit (idxS idxE idxT : Int) (l : List Cell) (n : Nat)
    (hyp : ∀ p : Nat × Cell, p ∈ l.enumFrom n →
      (((p.1 : Int) = idxT ↔ p.2 = Cell.str "Timestamp") ∧
       ((p.1 : Int) = idxE ↔ p.2 = Cell.str "Session End Time") ∧
       ((p.1 : Int) = idxS ↔ p.2 = Cell.str "Session Start Time"))) :
    (l.enumFrom n).filterMap (fun p =>
      if ((p.1 : Int) = idxE || (p.1 : Int) = idxT) then none
      else if (p.1 : Int) = idxS then some (Cell.str "Date")
      else some p.2)
    = l.filterMap specHeaderMap := by
  induction l generalizing n with
  | nil => simp
  | cons h t ih =>
    rw [List.enumFrom_cons]
    obtain ⟨h1x, h2x, h3x⟩ := hyp (n, h) (by rw [List.enumFrom_cons]; exact List.mem_cons_self _ _)
    have h1 : ((n : Nat) : Int) = idxT ↔ h = Cell.str "Timestamp" := h1x
    have h2 : ((n : Nat) : Int) = idxE ↔ h = Cell.str "Session End Time" := h2x
    have h3 : ((n : Nat) : Int) = idxS ↔ h = Cell.str "Session Start Time" := h3x
    have hstep : (if (((n : Nat) : Int) = idxE || ((n : Nat) : Int) = idxT) then none
        else if ((n : Nat) : Int) = idxS then some (Cell.str "Date") else some h)
        = specHeaderMap h := by
      unfold specHeaderMap
      by_cases hE : h = Cell.str "Session End Time"
      · have hb : (decide (((n : Nat) : Int) = idxE) || decide (((n : Nat) : Int) = idxT)) = true := by
          simp [h2.mpr hE]
        rw [if_pos hb, if_pos (Or.inl hE)]
      · by_cases hT : h = Cell.str "Timestamp"
        · have hb : (decide (((n : Nat) : Int) = idxE) || decide (((n : Nat) : Int) = idxT)) = true := by
            simp [h1.mpr hT]
          rw [if_pos hb, if_pos (Or.inr hT)]
        · have hnE : ¬(((n : Nat) : Int) = idxE) := fun hx => hE (h2.mp hx)
          have hnT : ¬(((n : Nat) : Int) = idxT) := fun hx => hT (h1.mp hx)
          have hb : ¬((decide (((n : Nat) : Int) = idxE) || decide (((n : Nat) : Int) = idxT)) = true) := by
            simp [hnE, hnT]
          have hor : ¬(h = Cell.str "Session End Time" ∨ h = Cell.str "Timestamp") := by
            tauto
          rw [if_neg hb, if_neg hor]
          by_cases hS : h = Cell.str "Session Start Time"
          · rw [if_pos (h3.mpr hS), if_pos hS]
          · have hnS : ¬(((n : Nat) : Int) = idxS) := fun hx => hS (h3.mp hx)
            rw [if_neg hnS, if_neg hS]
    have hrest : ∀ p : Nat × Cell, p ∈ t.enumFrom (n + 1) →
        (((p.1 : Int) = idxT ↔ p.2 = Cell.str "Timestamp") ∧
         ((p.1 : Int) = idxE ↔ p.2 = Cell.str "Session End Time") ∧
         ((p.1 : Int) = idxS ↔ p.2 = Cell.str "Session Start Time")) := by
      intro p hp
      exact hyp p (by rw [List.enumFrom_cons]; exact List.mem_cons_of_mem _ hp)
    rw [List.filterMap_cons, List.filterMap_cons]
    rw [hstep, ih (n + 1) hrest]

/-! Claim theorems. -/

/-- C4: for every list of session records, applying the filter stage with no
coordinator constraint (absent, empty, or the All Coordinators sentinel), no
school constraint (absent, empty, or the All Schools sentinel), and no start
or end date returns the input list unchanged in both order and content. -/
theorem filter_identity (parseDate : String → Option Int) (f : Filters)
    (idxName idxSchool idxStart : Int) (data : List Row)
    (hn : f.name = none ∨ f.name = some "" ∨ f.name = some "All Coordinators")
    (hs : f.school = none ∨ f.school = some "" ∨ f.school = some "All Schools")
    (hsd : f.startDate = none ∨ f.startDate = some "")
    (hed : f.endDate = none ∨ f.endDate = some "") :
    applyAllFilters parseDate f idxName idxSchool idxStart data = data := by
  have h1 : applyNameFilter f idxName data = data := by
    rcases hn with h | h | h <;> simp [applyNameFilter, h]
  have h2 : applySchoolFilter f idxSchool data = data := by
    rcases hs with h | h | h <;> simp [applySchoolFilter, h]
  have h3 : applyDateFilter parseDate f idxStart data = data := by
    rcases hsd with h | h <;> rcases hed with h4 | h4 <;>
      simp [applyDateFilter, jsTruthyStr, h, h4]
  rw [applyAllFilters, h1, h2, h3]

/-- Witness for filter_identity at a concrete criteria and record list. -/
theorem filter_identity_witness :
    applyAllFilters (fun _ => none) ⟨none, none, none, none⟩ 0 1 2
      [[Cell.str "row1"], [Cell.str "row2"]] = [[Cell.str "row1"], [Cell.str "row2"]] :=
  filter_identity (fun _ => none) ⟨none, none, none, none⟩ 0 1 2
    [[Cell.str "row1"], [Cell.str "row2"]]
    (Or.inl rfl) (Or.inl rfl) (Or.inl rfl) (Or.inl rfl)

/-- C6: for every filtered record list, Report1 contains exactly as many rows
as there are records, and the first cell of each row is the serial number,
taking the values position + 1 in filtered-sequence order, independent of
source row numbers. -/
theorem report1_serials (fmtDate fmtDateTime : Int → String) (idxStart : Int)
    (keep : List Nat) (data : List Row) :
    (buildReport1 fmtDate fmtDateTime idxStart keep data).length = data.length ∧
    ∀ i : Nat, i < data.length →
      ((buildReport1 fmtDate fmtDateTime idxStart keep data).getD i []).head? =
        some (Cell.num ((i : Int) + 1)) := by
  constructor
  · simp [buildReport1]
  · intro i hi
    have h1 : data[i]? = some data[i] := List.getElem?_eq_getElem hi
    simp [buildReport1, List.getD, List.getElem?_map, List.getElem?_enum, h1]

/-- Witness for report1_serials at a concrete record list and index. -/
theorem report1_serials_witness :
    (buildReport1 (fun _ => "") (fun _ => "") 0 [0] [[Cell.str "a"], [Cell.str "b"]]).length = 2 ∧
    ((buildReport1 (fun _ => "") (fun _ => "") 0 [0] [[Cell.str "a"], [Cell.str "b"]]).getD 1 []).head? =
      some (Cell.num 2) := by
  have h := report1_serials (fun _ => "") (fun _ => "") 0 [0] [[Cell.str "a"], [Cell.str "b"]]
  exact ⟨h.1, h.2 1 (by decide)⟩

/-- C8 counterexample: the getColumnData variant in src/unnamed/part_000
returns a bare empty list for a missing sheet, identical to its result for a
sheet with only a blank cell, so a caller cannot distinguish a source failure
from empty data there. -/
theorem columnReadAlt_cex :
    getColumnDataAlt (Except.ok none) = [] ∧
    getColumnDataAlt (Except.ok (some [[Cell.str ""]])) = [] ∧
    getColumnDataAlt (Except.ok none) = getColumnDataAlt (Except.ok (some [[Cell.str ""]])) :=
  ⟨rfl, by decide, by decide⟩

/-- C8 amended: in the src/DataEntryCode.js getColumnData, a storage-access
failure or missing sheet is caught and converted into an error-flagged result
carrying a message, distinct by construction from every data result. -/
theorem columnRead_error_flagged (sheetName : String)
    (access : Except String (Option (List Row)))
    (h : access = Except.ok none ∨ ∃ e, access = Except.error e) :
    ∃ m, getColumnData sheetName access = ColumnResult.error m ∧
      ∀ l, ColumnResult.error m ≠ ColumnResult.data l := by
  rcases h with h | ⟨e, h⟩ <;> subst h <;>
    exact ⟨_, rfl, fun l hc => ColumnResult.noConfusion hc⟩

/-- Witness for columnRead_error_flagged at a concrete missing sheet. -/
theorem columnRead_error_flagged_witness :
    ∃ m, getColumnData "Coordinators" (Except.ok none) = ColumnResult.error m ∧
      ∀ l, ColumnResult.error m ≠ ColumnResult.data l :=
  columnRead_error_flagged "Coordinators" (Except.ok none) (Or.inl rfl)

/-- C2 counterexample: on the segment 6a:1:2 the parse described by the claim
(split on the first colon only) yields a mapping for 6a, while the code
(split on every colon, keep only two-part segments) skips the segment. -/
theorem classCounts_firstColon_cex :
    parseClassCounts "6a:1:2" = [] ∧
    parseClassCountsSpecC2 "6a:1:2" = [("6a", 12)] ∧
    parseClassCountsSpecC2 "6a:1:2" ≠ parseClassCounts "6a:1:2" :=
  ⟨rfl, by decide, by decide⟩

/-- C2 amended: the classCounts parse splits on commas, then on every colon
in each segment, trims both sides, digit-strips and parses the count with
default 0, and silently skips segments that do not split into exactly two
non-empty parts; the three examples of the claim hold, and the parse agrees
with the amended specification on every string. -/
theorem classCounts_parse_spec :
    parseClassCounts "6a: 20, 7b: 15" = [("6a", 20), ("7b", 15)] ∧
    parseClassCounts "6a:abc" = [("6a", 0)] ∧
    parseClassCounts "garbage" = [] ∧
    ∀ s, parseClassCounts s = parseClassCountsAmendedSpec s := by
  refine ⟨by decide, by decide, by decide, fun s => ?_⟩
  unfold parseClassCounts parseSegs parseClassCountsAmendedSpec
  exact List.foldl_ext _ _ _ (fun m item _ => parseSegStep_eq_spec m item)

/-- C1 counterexample: for the reversed range startDate 2024-01-03, endDate
2024-01-01, the record timestamped exactly at startDate midnight
(172800000 ms with day-granular parsing from epoch 2024-01-01) is excluded
by the date filter, contradicting the claim for every criteria. -/
theorem dateRange_reversed_cex :
    passesDateRange
        (fun s => if s = "2024-01-03" then some 172800000
          else if s = "2024-01-01" then some 0 else none)
        (some "2024-01-03") (some "2024-01-01") (Cell.date 172800000) = false ∧
    applyDateFilter
        (fun s => if s = "2024-01-03" then some 172800000
          else if s = "2024-01-01" then some 0 else none)
        ⟨none, none, some "2024-01-03", some "2024-01-01"⟩ 0
        [[Cell.date 172800000]] = [] := by
  exact ⟨by decide, by decide⟩

/-- C1 amended: provided the parsed startDate instant is at most the parsed
endDate instant plus 86400000 ms (in particular whenever startDate is not
after endDate), a record at startDate midnight is included, one millisecond
before is excluded, a record at endDate midnight plus 24h is included, and
one millisecond later is excluded; the filter stage keeps exactly the rows
passing this predicate. -/
theorem dateRange_boundaries (parseDate : String → Option Int) (sds eds : String)
    (s e : Int) (hs : parseDate sds = some s) (he : parseDate eds = some e)
    (hsne : sds ≠ "") (hene : eds ≠ "") (hrange : s ≤ e + 86400000) :
    passesDateRange parseDate (some sds) (some eds) (Cell.date s) = true ∧
    passesDateRange parseDate (some sds) (some eds) (Cell.date (s - 1)) = false ∧
    passesDateRange parseDate (some sds) (some eds) (Cell.date (e + 86400000)) = true ∧
    passesDateRange parseDate (some sds) (some eds) (Cell.date (e + 86400000 + 1)) = false ∧
    ∀ (data : List Row) (idxStart : Int),
      applyDateFilter parseDate ⟨none, none, some sds, some eds⟩ idxStart data =
        data.filter (fun row =>
          passesDateRange parseDate (some sds) (some eds) (getCell row idxStart)) := by
  have hb1 : s ≤ s := le_refl s
  have hb2 : ¬(s ≤ s - 1) := by omega
  have hb3 : s ≤ e + 86400000 := hrange
  have hb4 : ¬(e + 86400000 + 1 ≤ e + 86400000) := by omega
  refine ⟨?_, ?_, ?_, ?_, ?_⟩
  · simp [passesDateRange, cellTime, jsTruthyStr, hsne, hene, hs, he, hb1, hb3]
  · simp [passesDateRange, cellTime, jsTruthyStr, hsne, hene, hs, he, hb2]
  · simp [passesDateRange, cellTime, jsTruthyStr, hsne, hene, hs, he, hb3]
  · simp [passesDateRange, cellTime, jsTruthyStr, hsne, hene, hs, he, hb4]
  · intro data idxStart
    simp [applyDateFilter, jsTruthyStr, hsne]

/-- Witness for dateRange_boundaries at concrete dates 2024-01-01 and
2024-01-05. -/
theorem dateRange_boundaries_witness :
    passesDateRange
        (fun str => if str = "2024-01-01" then some 0
          else if str = "2024-01-05" then some 345600000 else none)
        (some "2024-01-01") (some "2024-01-05") (Cell.date 0) = true ∧
    passesDateRange
        (fun str => if str = "2024-01-01" then some 0
          else if str = "2024-01-05" then some 345600000 else none)
        (some "2024-01-01") (some "2024-01-05") (Cell.date (0 - 1)) = false ∧
    passesDateRange
        (fun str => if str = "2024-01-01" then some 0
          else if str = "2024-01-05" then some 345600000 else none)
        (some "2024-01-01") (some "2024-01-05") (Cell.date (345600000 + 86400000)) = true ∧
    passesDateRange
        (fun str => if str = "2024-01-01" then some 0
          else if str = "2024-01-05" then some 345600000 else none)
        (some "2024-01-01") (some "2024-01-05") (Cell.date (345600000 + 86400000 + 1)) = false ∧
    ∀ (data : List Row) (idxStart : Int),
      applyDateFilter
          (fun str => if str = "2024-01-01" then some 0
            else if str = "2024-01-05" then some 345600000 else none)
          ⟨none, none, some "2024-01-01", some "2024-01-05"⟩ idxStart data =
        data.filter (fun row =>
          passesDateRange
            (fun str => if str = "2024-01-01" then some 0
              else if str = "2024-01-05" then some 345600000 else none)
            (some "2024-01-01") (some "2024-01-05") (getCell row idxStart)) :=
  dateRange_boundaries
    (fun str => if str = "2024-01-01" then some 0
      else if str = "2024-01-05" then some 345600000 else none)
    "2024-01-01" "2024-01-05" 0 345600000 (by decide) (by decide)
    (by decide) (by decide) (by decide)

theorem specHeaderMap_not_special (a : Cell) (x : String)
    (hxD : ¬(x = "Date")) (hx : x = "Timestamp" ∨ x = "Session End Time") :
    specHeaderMap a ≠ some (Cell.str x) := by
  intro hmap
  unfold specHeaderMap at hmap
  split at hmap
  · exact Option.noConfusion hmap
  · split at hmap
    · simp only [Option.some.injEq, Cell.str.injEq] at hmap
      exact hxD hmap.symm
    · simp only [Option.some.injEq] at hmap
      subst hmap
      rcases hx with hx | hx <;> simp_all

/-- C5 counterexample: for the header row [Timestamp, Name, Timestamp], the
emitted Report1 headers contain Timestamp, because removal is by the
precomputed first index and only the first occurrence is dropped; this
contradicts the claim quantified over every header row. -/
theorem report1Headers_duplicate_cex :
    report1HeadersOf [Cell.str "Timestamp", Cell.str "Name", Cell.str "Timestamp"] =
      [Cell.str "S No", Cell.str "Name", Cell.str "Timestamp"] ∧
    Cell.str "Timestamp" ∈
      report1HeadersOf [Cell.str "Timestamp", Cell.str "Name", Cell.str "Timestamp"] :=
  ⟨by decide, by decide⟩

/-- C5 amended: for every Tracker header row in which Timestamp, Session End
Time and Session Start Time each occur at most once, the emitted Report1
headers equal S No followed by the headers with Session End Time and
Timestamp dropped and Session Start Time renamed to Date, in original order;
in particular they never contain Timestamp or Session End Time and begin
with S No. -/
theorem report1Headers_shape (headers : List Cell)
    (hT : headers.count (Cell.str "Timestamp") ≤ 1)
    (hE : headers.count (Cell.str "Session End Time") ≤ 1)
    (hS : headers.count (Cell.str "Session Start Time") ≤ 1) :
    report1HeadersOf headers = Cell.str "S No" :: headers.filterMap specHeaderMap ∧
    Cell.str "Timestamp" ∉ report1HeadersOf headers ∧
    Cell.str "Session End Time" ∉ report1HeadersOf headers ∧
    (report1HeadersOf headers).head? = some (Cell.str "S No") := by
  have hmain : report1HeadersOf headers =
      Cell.str "S No" :: headers.filterMap specHeaderMap := by
    simp only [report1HeadersOf]
    congr 1
    show (headers.enumFrom 0).filterMap _ = _
    apply enumFrom_filterMap_emit
    intro p hp
    rcases mem_enumFrom_getElem _ _ _ hp with ⟨i, hpi, hget⟩
    have hpi0 : p.1 = i := by omega
    rw [hpi0]
    exact ⟨indexOfCell_spec headers "Timestamp" hT i p.2 hget,
      indexOfCell_spec headers "Session End Time" hE i p.2 hget,
      indexOfCell_spec headers "Session Start Time" hS i p.2 hget⟩
  refine ⟨hmain, ?_, ?_, by rw [hmain]; rfl⟩
  · rw [hmain]
    intro hmem
    rcases List.mem_cons.mp hmem with h | h
    · simp at h
    · rcases List.mem_filterMap.mp h with ⟨a, _, hmap⟩
      exact specHeaderMap_not_special a "Timestamp" (by decide) (Or.inl rfl) hmap
  · rw [hmain]
    intro hmem
    rcases List.mem_cons.mp hmem with h | h
    · simp at h
    · rcases List.mem_filterMap.mp h with ⟨a, _, hmap⟩
      exact specHeaderMap_not_special a "Session End Time" (by decide) (Or.inr rfl) hmap

/-- Witness for report1Headers_shape at the actual Tracker schema header
row. -/
theorem report1Headers_shape_witness :
    report1HeadersOf [Cell.str "Timestamp", Cell.str "Name",
        Cell.str "Session Start Time", Cell.str "Session End Time", Cell.str "Module",
        Cell.str "School Name", Cell.str "Class_Student_Counts",
        Cell.str "Learning Outcomes", Cell.str "Challenges Faced"] =
      Cell.str "S No" :: List.filterMap specHeaderMap [Cell.str "Timestamp",
        Cell.str "Name", Cell.str "Session Start Time", Cell.str "Session End Time",
        Cell.str "Module", Cell.str "School Name", Cell.str "Class_Student_Counts",
        Cell.str "Learning Outcomes", Cell.str "Challenges Faced"] ∧
    Cell.str "Timestamp" ∉ report1HeadersOf [Cell.str "Timestamp", Cell.str "Name",
        Cell.str "Session Start Time", Cell.str "Session End Time", Cell.str "Module",
        Cell.str "School Name", Cell.str "Class_Student_Counts",
        Cell.str "Learning Outcomes", Cell.str "Challenges Faced"] ∧
    Cell.str "Session End Time" ∉ report1HeadersOf [Cell.str "Timestamp", Cell.str "Name",
        Cell.str "Session Start Time", Cell.str "Session End Time", Cell.str "Module",
        Cell.str "School Name", Cell.str "Class_Student_Counts",
        Cell.str "Learning Outcomes", Cell.str "Challenges Faced"] ∧
    (report1HeadersOf [Cell.str "Timestamp", Cell.str "Name",
        Cell.str "Session Start Time", Cell.str "Session End Time", Cell.str "Module",
        Cell.str "School Name", Cell.str "Class_Student_Counts",
        Cell.str "Learning Outcomes", Cell.str "Challenges Faced"]).head? =
      some (Cell.str "S No") :=
  report1Headers_shape [Cell.str "Timestamp", Cell.str "Name",
    Cell.str "Session Start Time", Cell.str "Session End Time", Cell.str "Module",
    Cell.str "School Name", Cell.str "Class_Student_Counts",
    Cell.str "Learning Outcomes", Cell.str "Challenges Faced"]
    (by decide) (by decide) (by decide)

/-- C3 counterexample: for school X with catalog classes [10, 2] and zero
matching sessions, the breakdown lists 2 before 10, because JS object keys
that are array indices are enumerated in ascending numeric order; the
claimed catalog order [10, 2] does not hold. -/
theorem classBreakdown_order_cex :
    classBreakdownFor (fun _ => "") 0 1 2 3 [Cell.str "X"]
        [[Cell.str "10"], [Cell.str "2"]] "X" [] =
      [⟨"2", []⟩, ⟨"10", []⟩] ∧
    classBreakdownFor (fun _ => "") 0 1 2 3 [Cell.str "X"]
        [[Cell.str "10"], [Cell.str "2"]] "X" [] ≠
      [⟨"10", []⟩, ⟨"2", []⟩] :=
  ⟨by decide, by decide⟩

/-- C3 amended: for every selected school found in the Schools sheet header,
the class breakdown has exactly one entry per distinct class listed for that
school, ordered by first occurrence in the catalog except that class names
that are canonical array-index strings come first in ascending numeric order
(JS object key order), and every entry whose class is mentioned by no
filtered session has an empty session list. -/
theorem classBreakdown_seeding (fmtDate : Int → String)
    (idxName idxStart idxModule idxCC : Int) (sh : Row) (rest : List Row)
    (schoolName : String) (data : List Row)
    (hfound : indexOfCell sh schoolName ≠ -1) :
    (classBreakdownFor fmtDate idxName idxStart idxModule idxCC sh rest schoolName data).map
        BreakdownEntry.className =
      specOrder (((rest.map (fun row => getCell row (indexOfCell sh schoolName))).filter
        jsTruthyCell).map cellToString) ∧
    ∀ e ∈ classBreakdownFor fmtDate idxName idxStart idxModule idxCC sh rest schoolName data,
      (∀ row ∈ data, objLookup (sessionMapOf row idxCC) e.className = none) →
      e.sessions = [] := by
  unfold classBreakdownFor
  rw [if_neg hfound]
  constructor
  · rw [List.map_map]
    have hid : (BreakdownEntry.className ∘ fun cls =>
        (⟨cls, objLookupD (data.foldl (rowStep fmtDate idxName idxStart idxModule idxCC)
          (seedBreakdown ((rest.map (fun row =>
            getCell row (indexOfCell sh schoolName))).filter jsTruthyCell))) cls []⟩ :
          BreakdownEntry)) = id := rfl
    rw [hid, List.map_id]
    simp only [objKeys]
    rw [keys_populate, keys_seedBreakdown]
    rfl
  · intro e he hnm
    rcases List.mem_map.mp he with ⟨cls, hclsmem, hecls⟩
    have hcls2 : e.className = cls := by rw [← hecls]
    rw [hcls2] at hnm
    have hclskeys : cls ∈ (seedBreakdown ((rest.map (fun row =>
        getCell row (indexOfCell sh schoolName))).filter jsTruthyCell)).map Prod.fst := by
      have h1 := (mem_objKeys _ cls).mp hclsmem
      rwa [keys_populate] at h1
    rcases mem_keys_exists _ _ hclskeys with ⟨v, hv⟩
    have hveq : v = [] := lookup_seedBreakdown_empty _ cls v hv
    have hfin : objLookup (data.foldl (rowStep fmtDate idxName idxStart idxModule idxCC)
        (seedBreakdown ((rest.map (fun row =>
          getCell row (indexOfCell sh schoolName))).filter jsTruthyCell))) cls = some v := by
      rw [lookup_populate_unmentioned _ _ _ _ _ _ _ _ hnm, hv]
    rw [← hecls]
    show objLookupD _ cls [] = []
    rw [objLookupD, hfin, hveq]
    rfl

/-- Witness for classBreakdown_seeding at the claim example: school X with
classes [6a, 7b] and zero sessions, together with the concrete breakdown
value showing one empty entry per class in catalog order. -/
theorem classBreakdown_seeding_witness :
    ((classBreakdownFor (fun _ => "") 0 1 2 3 [Cell.str "X"]
        [[Cell.str "6a"], [Cell.str "7b"]] "X" []).map BreakdownEntry.className =
      specOrder ((([[Cell.str "6a"], [Cell.str "7b"]].map (fun row =>
        getCell row (indexOfCell [Cell.str "X"] "X"))).filter jsTruthyCell).map cellToString) ∧
    ∀ e ∈ classBreakdownFor (fun _ => "") 0 1 2 3 [Cell.str "X"]
        [[Cell.str "6a"], [Cell.str "7b"]] "X" [],
      (∀ row ∈ ([] : List Row), objLookup (sessionMapOf row 3) e.className = none) →
      e.sessions = []) ∧
    classBreakdownFor (fun _ => "") 0 1 2 3 [Cell.str "X"]
        [[Cell.str "6a"], [Cell.str "7b"]] "X" [] = [⟨"6a", []⟩, ⟨"7b", []⟩] :=
  ⟨classBreakdown_seeding (fun _ => "") 0 1 2 3 [Cell.str "X"]
    [[Cell.str "6a"], [Cell.str "7b"]] "X" [] (by decide), by decide⟩

/-- C9: getFilteredData returns the bare empty array exactly when the Tracker
sheet is missing or contains at most one row; on every other input either
the call throws (modelled as none) or the result is the structured object,
never the bare empty array. -/
theorem emptyTracker_shape (parseDate : String → Option Int)
    (fmtDate fmtDateTime : Int → String) (tracker schools : Option (List Row))
    (filters : Filters) :
    getFilteredData parseDate fmtDate fmtDateTime tracker schools filters =
        some GFOutput.emptyArray ↔
      (tracker = none ∨ ∃ v, tracker = some v ∧ v.length ≤ 1) := by
  cases tracker with
  | none => simp [getFilteredData]
  | some v =>
    by_cases h : v.length ≤ 1
    · simp [getFilteredData, h]
    · have hL : getFilteredData parseDate fmtDate fmtDateTime (some v) schools filters ≠
          some GFOutput.emptyArray := by
        simp only [getFilteredData, if_neg h]
        split
        · simp
        · simp
      constructor
      · intro hc
        exact absurd hc hL
      · rintro (hc | ⟨w, hw, hl⟩)
        · exact Option.noConfusion hc
        · rw [Option.some.injEq] at hw
          subst hw
          exact absurd hl h

theorem schoolSelected_false_iff (f : Filters) :
    schoolSelected f = false ↔
      (f.school = none ∨ f.school = some "" ∨ f.school = some "All Schools") := by
  cases h : f.school with
  | none => simp [schoolSelected, h]
  | some s =>
    simp only [schoolSelected, h, Bool.and_eq_false_iff]
    constructor
    · intro hc
      rcases hc with hc | hc
      · simp at hc
        simp [hc]
      · simp at hc
        simp [hc]
    · intro hc
      rcases hc with hc | hc | hc
      · exact Option.noConfusion hc
      · rw [Option.some.injEq] at hc
        left
        simp [hc]
      · rw [Option.some.injEq] at hc
        right
        simp [hc]

/-- C7: for every filter criteria, on a Tracker with data rows and a
non-empty Schools sheet the result object is returned, its report2 is null
exactly when the school criterion is absent, empty or the All Schools
sentinel, and filterValues echoes the input criteria unchanged. -/
theorem report2_nullness (parseDate : String → Option Int)
    (fmtDate fmtDateTime : Int → String) (values : List Row) (sh : Row)
    (srest : List Row) (filters : Filters) (hlen : 1 < values.length) :
    ∃ r, getFilteredData parseDate fmtDate fmtDateTime (some values)
        (some (sh :: srest)) filters = some (GFOutput.result r) ∧
      (r.report2 = none ↔
        (filters.school = none ∨ filters.school = some "" ∨
          filters.school = some "All Schools")) ∧
      r.filterValues = filters := by
  have hnle : ¬(values.length ≤ 1) := by omega
  cases hout : getFilteredData parseDate fmtDate fmtDateTime (some values)
      (some (sh :: srest)) filters with
  | none =>
    exfalso
    by_cases hsel : schoolSelected filters <;>
      simp [getFilteredData, hnle, hsel] at hout
  | some out =>
    have hval := hout
    by_cases hsel : schoolSelected filters
    · simp [getFilteredData, hnle, hsel] at hval
      subst hval
      refine ⟨_, rfl, ?_, ?_⟩
      · constructor
        · intro hc
          exfalso
          simp at hc
        · intro hrhs
          exfalso
          have hff := (schoolSelected_false_iff filters).mpr hrhs
          rw [hsel] at hff
          exact Bool.noConfusion hff
      · rfl
    · simp [getFilteredData, hnle, hsel] at hval
      subst hval
      refine ⟨_, rfl, ?_, ?_⟩
      · have hrhs := (schoolSelected_false_iff filters).mp (by simpa using hsel)
        constructor
        · intro _
          exact hrhs
        · intro _
          rfl
      · rfl

/-- Witness for report2_nullness at a concrete two-row Tracker, one-row
Schools sheet and empty criteria. -/
theorem report2_nullness_witness :
    ∃ r, getFilteredData (fun _ => none) (fun _ => "") (fun _ => "")
        (some [[Cell.str "h"], [Cell.str "d"]]) (some [[Cell.str "X"]])
        ⟨none, none, none, none⟩ = some (GFOutput.result r) ∧
      (r.report2 = none ↔
        ((⟨none, none, none, none⟩ : Filters).school = none ∨
          (⟨none, none, none, none⟩ : Filters).school = some "" ∨
          (⟨none, none, none, none⟩ : Filters).school = some "All Schools")) ∧
      r.filterValues = ⟨none, none, none, none⟩ :=
  report2_nullness (fun _ => none) (fun _ => "") (fun _ => "")
    [[Cell.str "h"], [Cell.str "d"]] [Cell.str "X"] [] ⟨none, none, none, none⟩
    (by decide)

/-- C10: within one classCounts string, duplicate class names collapse into a
single map entry (the parsed keys are duplicate-free) whose count is the
last occurrence, and consequently one session appends at most one entry to
any class list of the breakdown. -/
theorem classCounts_duplicates_last_wins :
    (∀ s k, objLookup (parseClassCounts s) k =
      lastParsedCount (splitCharsOn ',' s.data) k) ∧
    (∀ s, ((parseClassCounts s).map Prod.fst).Nodup) ∧
    (∀ (fmtDate : Int → String) (idxName idxStart idxModule idxCC : Int)
        (m : List (String × List SessionEntry)) (row : Row) (c : String),
      (objLookupD (rowStep fmtDate idxName idxStart idxModule idxCC m row) c []).length ≤
        (objLookupD m c []).length + 1) := by
  refine ⟨?_, nodup_keys_parseClassCounts, ?_⟩
  · intro s k
    unfold parseClassCounts parseSegs
    rw [lookup_parseSegFold]
    cases h : lastParsedCount (splitCharsOn ',' s.data) k
    · simp [objLookup]
    · simp
  · intro fmtDate idxName idxStart idxModule idxCC m row c
    simp only [rowStep]
    refine le_trans (lookupD_pushFold_le _ _ _ _ _ _ _) ?_
    have hc := count_objKeys_le_one (sessionMapOf row idxCC)
      (nodup_keys_sessionMapOf row idxCC) c
    omega

end Chetana
